import Mathlib

/-!
Verification of the Totro name generator (`src/totro.rs`).

The Rust code is shallowly embedded: the random source (`rand::Rng`) is a
stream of natural numbers with a cursor, each `rng.gen*` call consumes one
draw; the unbounded rejection-sampling `loop` is indexed by explicit fuel,
so every terminating run of the Rust code corresponds to some fuel value;
Rust panics become explicit error outcomes.
-/

set_option autoImplicit false

/-- Fragment: the Rust table entry type `(&str, u8)`. -/
abbrev Frag := String × Nat

/-- 0 dot-in-word -/
def NIW : Nat := 0
/-- 4 beginning-of-word -/
def BOW : Nat := 4
/-- 2 middle-of-word -/
def MOW : Nat := 2
/-- 1 end-of-word -/
def EOW : Nat := 1
/-- 6 beginning-middle-word -/
def BMW : Nat := BOW ||| MOW
/-- 5 beginning-end-word -/
def BEW : Nat := BOW ||| EOW
/-- 3 middle-end-word -/
def MEW : Nat := MOW ||| EOW
/-- 7 all-in-word -/
def AIW : Nat := BOW ||| MOW ||| EOW

/-- The constant `CONSONANTS: [(&str, u8); 91]` table, transcribed entry by entry. -/
def CONSONANTS : List Frag := [
  -- Letter Singles
  ("b", AIW), ("c", AIW), ("d", AIW), ("f", AIW),
  ("g", AIW), ("h", AIW), ("j", AIW), ("k", AIW),
  ("l", AIW), ("m", AIW), ("n", AIW), ("p", AIW),
  ("qu", BMW), ("r", AIW), ("s", AIW), ("t", AIW),
  ("v", AIW), ("w", AIW), ("x", AIW), ("y", AIW),
  ("z", AIW),
  ("sc", AIW),
  -- Blends
  ("ch", AIW), ("gh", AIW), ("ph", AIW), ("sh", AIW),
  ("th", AIW), ("wh", BMW), ("ck", BEW), ("nk", BEW),
  ("rk", BEW), ("sk", AIW), ("wk", NIW),
  ("cl", BMW), ("fl", BMW), ("gl", BMW), ("kl", BMW),
  ("ll", BMW), ("pl", BMW), ("sl", BMW),
  ("br", BMW), ("cr", BMW), ("dr", BMW), ("fr", BMW),
  ("gr", BMW), ("kr", BMW), ("pr", BMW), ("sr", BMW),
  ("tr", BMW),
  ("ss", BEW),
  ("st", AIW),
  ("str", BMW),
  -- More copies to increase frequency
  ("b", AIW), ("c", AIW), ("d", AIW), ("f", AIW),
  ("g", AIW), ("h", AIW), ("j", AIW), ("k", AIW),
  ("l", AIW), ("m", AIW), ("n", AIW), ("p", AIW),
  ("r", AIW), ("s", AIW), ("t", AIW), ("v", AIW),
  ("w", AIW), ("b", AIW), ("c", AIW), ("d", AIW),
  ("f", AIW), ("g", AIW), ("h", AIW), ("j", AIW),
  ("k", AIW), ("l", AIW), ("m", AIW), ("n", AIW),
  ("p", AIW), ("r", AIW), ("s", AIW), ("t", AIW),
  ("v", AIW), ("w", AIW), ("br", BMW), ("dr", BMW),
  ("fr", BMW), ("gr", BMW), ("kr", BMW)]

/-- The constant `VOWELS: [(&str, u8); 83]` table, transcribed entry by entry. -/
def VOWELS : List Frag := [
  ("a", AIW), ("e", AIW), ("i", AIW), ("o", AIW), ("u", AIW),
  ("a", AIW), ("e", AIW), ("i", AIW), ("o", AIW), ("u", AIW),
  ("a", AIW), ("e", AIW), ("i", AIW), ("o", AIW), ("u", AIW),
  ("a", AIW), ("e", AIW), ("i", AIW), ("o", AIW), ("u", AIW),
  ("a", AIW), ("e", AIW), ("i", AIW), ("o", AIW), ("u", AIW),
  ("a", AIW), ("e", AIW), ("i", AIW), ("o", AIW), ("u", AIW),
  ("a", AIW), ("e", AIW), ("i", AIW), ("o", AIW), ("u", AIW),
  ("a", AIW), ("e", AIW), ("i", AIW), ("o", AIW), ("u", AIW),
  ("a", AIW), ("e", AIW), ("i", AIW), ("o", AIW), ("u", AIW),
  ("a", AIW), ("e", AIW), ("i", AIW), ("o", AIW), ("u", AIW),
  ("a", AIW), ("e", AIW), ("i", AIW), ("o", AIW), ("u", AIW),
  ("a", AIW), ("e", AIW), ("i", AIW), ("o", AIW), ("u", AIW),
  -- Vowel Blends
  ("aa", AIW), ("ae", AIW), ("ai", AIW), ("ao", AIW), ("au", AIW),
  ("ea", AIW), ("ee", AIW), ("ei", AIW), ("eo", AIW), ("eu", AIW),
  ("ia", AIW), ("ie", AIW), ("ii", AIW), ("io", AIW), ("iu", AIW),
  ("oa", AIW), ("oe", AIW), ("oi", AIW), ("oo", AIW), ("ou", AIW),
  ("eau", AIW), ("'", MEW), ("y", AIW)]

/-- The random source: a stream of uniform natural draws and a cursor.
Each `rng.gen*` call in the Rust code consumes exactly one draw. -/
structure RngState where
  stream : Nat → Nat
  pos : Nat

/-- Consume one raw draw from the source. -/
def next (r : RngState) : Nat × RngState :=
  (r.stream r.pos, ⟨r.stream, r.pos + 1⟩)

/-- Embeds `rng.gen_range(lo..hi)`: one draw mapped uniformly into the
half-open interval `[lo, hi)` (only invoked with `lo < hi`). -/
def genRange (lo hi : Nat) (r : RngState) : Nat × RngState :=
  let p := next r
  (lo + p.1 % (hi - lo), p.2)

/-- Embeds `rng.gen::<bool>()`: one draw reduced to a boolean. -/
def genBool (r : RngState) : Bool × RngState :=
  let p := next r
  (p.1 % 2 == 1, p.2)

/-- The rejection test of the inner `loop` (`totro.rs` lines 78-84): the
three `continue` conditions of the `if`/`else if` chain, in order.  The
draw is rejected iff one of them holds. -/
def rejected (idx length mask : Nat) : Bool :=
  (idx == 0 && ((mask &&& BOW) != BOW)) ||
  (idx == (length - 1) && ((mask &&& EOW) != EOW)) ||
  ((mask &&& MOW) != MOW)

/-- Panics and abnormal exits of `generate`, made explicit. -/
inductive GenErr where
  /-- the `panic!` for `min > max` (line 67) -/
  | invalidRange
  /-- a `.get(..).unwrap()` failure on a table (lines 74/76) -/
  | lookupPanic
  /-- the `.get_mut(0..1).unwrap()` failure on the output (line 90) -/
  | capitalizePanic
  /-- fuel exhausted: the run of the unbounded loop was cut short -/
  | outOfFuel
deriving DecidableEq

/-- Result of a `generate` call. -/
inductive Outcome where
  /-- normal return of the assembled name -/
  | name (s : String)
  /-- a panic -/
  | panicked (e : GenErr)
deriving DecidableEq

/-- The inner rejection-sampling `loop` (lines 72-88): draw an index into
the active table, fetch, retry while `rejected`.  `fuel` bounds the number
of iterations observed; the Rust loop itself is uncapped. -/
def pickLoop (vowel : Bool) (idx length : Nat) : Nat → RngState → Except GenErr Frag × RngState
  | 0, r => (.error .outOfFuel, r)
  | fuel + 1, r =>
    let p := next r
    let table := if vowel then VOWELS else CONSONANTS
    match table.get? (p.1 % table.length) with
    | none => (.error .lookupPanic, p.2)
    | some token =>
      if rejected idx length token.2 then
        pickLoop vowel idx length fuel p.2
      else
        (.ok token, p.2)

/-- The outer `for idx in 0..length` loop (line 71), recursing on the count
of positions still to fill.  Each accepted token is recorded together with
the parity (`vowel`) of the table it was drawn from; the parity flips on
acceptance (line 85). -/
def genFrags (fuel length : Nat) : Nat → Nat → Bool → RngState → Except GenErr (List (Frag × Bool)) × RngState
  | 0, _, _, r => (.ok [], r)
  | count + 1, idx, vowel, r =>
    match pickLoop vowel idx length fuel r with
    | (.error e, r1) => (.error e, r1)
    | (.ok token, r1) =>
      match genFrags fuel length count (idx + 1) (!vowel) r1 with
      | (.error e, r2) => (.error e, r2)
      | (.ok rest, r2) => (.ok ((token, vowel) :: rest), r2)

/-- Lines 61-88 of `generate`: choose the length (panicking when
`min > max`), draw the starting parity, and run the fragment loop.
Returns the accepted fragments in order rather than the concatenated
string, so that per-position facts can be stated. -/
def generateTrace (fuel min max : Nat) (r : RngState) : Except GenErr (List (Frag × Bool)) × RngState :=
  if min < max then
    let pL := genRange min max r
    let pV := genBool pL.2
    genFrags fuel pL.1 pL.1 0 pV.1 pV.2
  else if min = max then
    let pV := genBool r
    genFrags fuel min min 0 pV.1 pV.2
  else
    (.error .invalidRange, r)

/-- The output string before capitalization: the `output.push_str(&token.0)`
accumulation (line 86) over the accepted fragments. -/
def fragsToString (tr : List (Frag × Bool)) : String :=
  tr.foldl (fun acc t => acc ++ t.1.1) ""

/-- `u8::make_ascii_uppercase` on a single character. -/
def asciiToUpper (c : Char) : Char :=
  if 'a' ≤ c ∧ c ≤ 'z' then Char.ofNat (c.toNat - 32) else c

/-- Line 90, `output.get_mut(0..1).unwrap().make_ascii_uppercase()`:
`get_mut(0..1)` yields a slice only when the string is nonempty and byte 1
is a character boundary (first character is one byte, i.e. ASCII); on that
slice the single byte is uppercased.  `none` is the `unwrap` panic. -/
def capitalizeFirst (s : String) : Option String :=
  match s.data with
  | [] => none
  | c :: cs => if c.toNat < 128 then some (String.mk (asciiToUpper c :: cs)) else none

/-- The full `Totro::generate`: fragment assembly followed by the
capitalization of the first character and return of the output. -/
def generate (fuel min max : Nat) (r : RngState) : Outcome × RngState :=
  match generateTrace fuel min max r with
  | (.error e, r1) => (.panicked e, r1)
  | (.ok tr, r1) =>
    match capitalizeFirst (fragsToString tr) with
    | none => (.panicked .capitalizePanic, r1)
    | some s => (.name s, r1)

/-- The starting parity drawn at line 70, as a function of the inputs:
the boolean draw follows the length draw when `min < max` and is the
first draw otherwise. -/
def initialVowel (min max : Nat) (r : RngState) : Bool :=
  if min < max then (genBool (genRange min max r).2).1 else (genBool r).1

/-- Trace entry lookup with a default, for stating per-position facts. -/
def entry (tr : List (Frag × Bool)) (j : Nat) : Frag × Bool :=
  tr.getD j (("", 0), false)

/-- Two random sources yield identical draw sequences from their cursors on. -/
def EquivFrom (r1 r2 : RngState) : Prop :=
  ∀ n, r1.stream (r1.pos + n) = r2.stream (r2.pos + n)

/-! ## Basic lemmas -/

theorem entry_cons_zero (a : Frag × Bool) (l : List (Frag × Bool)) : entry (a :: l) 0 = a := rfl

theorem entry_cons_succ (a : Frag × Bool) (l : List (Frag × Bool)) (j : Nat) :
    entry (a :: l) (j + 1) = entry l j := rfl

theorem entry_eq_get : ∀ (tr : List (Frag × Bool)) (i : Nat) (h : i < tr.length),
    entry tr i = tr.get ⟨i, h⟩ := by
  intro tr
  induction tr with
  | nil => intro i h; exact absurd h (by simp)
  | cons a l ih =>
    intro i h
    cases i with
    | zero => rfl
    | succ j => exact ih j (Nat.lt_of_succ_lt_succ h)

/-- The acceptance condition of the inner loop, unfolded: a draw survives
the chain iff BEGIN holds when at position 0, END holds when at the last
position, and MIDDLE holds unconditionally. -/
theorem rejected_false_iff (idx length mask : Nat) :
    rejected idx length mask = false ↔
      ((idx = 0 → mask &&& BOW = BOW) ∧ (idx = length - 1 → mask &&& EOW = EOW) ∧
        mask &&& MOW = MOW) := by
  simp [rejected]
  tauto

theorem xor_parity (v : Bool) (k : Nat) :
    (!v).xor (decide (k % 2 = 1)) = v.xor (decide ((k + 1) % 2 = 1)) := by
  rcases Nat.mod_two_eq_zero_or_one k with h | h
  · have h2 : (k + 1) % 2 = 1 := by omega
    simp [h, h2]
  · have h2 : (k + 1) % 2 = 0 := by omega
    simp [h, h2]

/-- Every token the inner loop accepts passed the rejection test and was
fetched from the active table. -/
theorem pickLoop_ok (vowel : Bool) (idx length : Nat) :
    ∀ fuel r token r1, pickLoop vowel idx length fuel r = (.ok token, r1) →
      rejected idx length token.2 = false ∧
      token ∈ (if vowel then VOWELS else CONSONANTS) := by
  intro fuel
  induction fuel with
  | zero =>
    intro r token r1 h
    simp [pickLoop] at h
  | succ n ih =>
    intro r token r1 h
    simp only [pickLoop] at h
    split at h
    · simp at h
    · rename_i tok hg
      split at h
      · exact ih _ _ _ h
      · rename_i hr
        simp only [Prod.mk.injEq, Except.ok.injEq] at h
        obtain ⟨rfl, rfl⟩ := h
        exact ⟨Bool.eq_false_iff.mpr hr, List.get?_mem hg⟩

/-- Master invariant of the outer loop: a successful run fills exactly
`count` positions, and every accepted fragment passed the rejection test
at its absolute position, came from the table selected by the strictly
alternating parity, and is a member of that table. -/
theorem genFrags_ok (fuel length : Nat) :
    ∀ count idx vowel r tr r1,
      genFrags fuel length count idx vowel r = (.ok tr, r1) →
      tr.length = count ∧
      ∀ j, j < count →
        rejected (idx + j) length (entry tr j).1.2 = false ∧
        (entry tr j).2 = vowel.xor (decide (j % 2 = 1)) ∧
        (entry tr j).1 ∈ (if (entry tr j).2 then VOWELS else CONSONANTS) := by
  intro count
  induction count with
  | zero =>
    intro idx vowel r tr r1 h
    simp only [genFrags, Prod.mk.injEq, Except.ok.injEq] at h
    obtain ⟨rfl, rfl⟩ := h
    exact ⟨rfl, by omega⟩
  | succ n ih =>
    intro idx vowel r tr r1 h
    simp only [genFrags] at h
    split at h
    · simp at h
    · rename_i token r2 hp
      split at h
      · simp at h
      · rename_i rest r3 hgf
        simp only [Prod.mk.injEq, Except.ok.injEq] at h
        obtain ⟨rfl, rfl⟩ := h
        obtain ⟨hpick1, hpick2⟩ := pickLoop_ok vowel idx length fuel r token r2 hp
        obtain ⟨hlen, hrest⟩ := ih (idx + 1) (!vowel) r2 rest r3 hgf
        refine ⟨by simp [hlen], ?_⟩
        intro j hj
        cases j with
        | zero =>
          rw [entry_cons_zero]
          refine ⟨by simpa using hpick1, by simp, by simpa using hpick2⟩
        | succ k =>
          rw [entry_cons_succ]
          obtain ⟨hk1, hk2, hk3⟩ := hrest k (by omega)
          refine ⟨?_, ?_, hk3⟩
          · have : idx + 1 + k = idx + (k + 1) := by omega
            rw [this] at hk1
            exact hk1
          · rw [hk2, xor_parity]

/-- Invariant of a successful `generateTrace` run: the fragment count obeys
the length-selection rule, the trace head carries the starting parity, and
every fragment passed the rejection test at its position, alternates parity
from the head, and belongs to the table matching its parity. -/
theorem generateTrace_ok {fuel min max : Nat} {r : RngState}
    {tr : List (Frag × Bool)} {r1 : RngState}
    (h : generateTrace fuel min max r = (.ok tr, r1)) :
    ((min < max → min ≤ tr.length ∧ tr.length < max) ∧ (min = max → tr.length = min)) ∧
    (0 < tr.length → (entry tr 0).2 = initialVowel min max r) ∧
    ∀ j, j < tr.length →
      rejected j tr.length (entry tr j).1.2 = false ∧
      (entry tr j).2 = ((entry tr 0).2).xor (decide (j % 2 = 1)) ∧
      (entry tr j).1 ∈ (if (entry tr j).2 then VOWELS else CONSONANTS) := by
  by_cases hlt : min < max
  · rw [generateTrace, if_pos hlt] at h
    obtain ⟨hlen, hall⟩ := genFrags_ok fuel (genRange min max r).1 (genRange min max r).1 0
      (genBool (genRange min max r).2).1 (genBool (genRange min max r).2).2 tr r1 h
    have hdraw : min ≤ (genRange min max r).1 ∧ (genRange min max r).1 < max := by
      have hm := Nat.mod_lt ((next r).1) (y := max - min) (by omega)
      simp only [genRange]
      omega
    have hhead : 0 < tr.length → (entry tr 0).2 = (genBool (genRange min max r).2).1 := by
      intro hpos
      obtain ⟨-, hf0, -⟩ := hall 0 (by omega)
      simpa using hf0
    refine ⟨⟨fun _ => by omega, fun he => by omega⟩, ?_, ?_⟩
    · intro hpos
      rw [hhead hpos, initialVowel, if_pos hlt]
    · intro j hj
      obtain ⟨hr1, hr2, hr3⟩ := hall j (by omega)
      rw [hlen]
      refine ⟨by simpa using hr1, ?_, hr3⟩
      rw [hr2, hhead (by omega)]
  · by_cases heq : min = max
    · rw [generateTrace, if_neg hlt, if_pos heq] at h
      obtain ⟨hlen, hall⟩ := genFrags_ok fuel min min 0 (genBool r).1 (genBool r).2 tr r1 h
      have hhead : 0 < tr.length → (entry tr 0).2 = (genBool r).1 := by
        intro hpos
        obtain ⟨-, hf0, -⟩ := hall 0 (by omega)
        simpa using hf0
      refine ⟨⟨fun hc => absurd hc hlt, fun _ => hlen⟩, ?_, ?_⟩
      · intro hpos
        rw [hhead hpos, initialVowel, if_neg hlt]
      · intro j hj
        obtain ⟨hr1, hr2, hr3⟩ := hall j (by omega)
        rw [hlen]
        refine ⟨by simpa using hr1, ?_, hr3⟩
        rw [hr2, hhead (by omega)]
    · rw [generateTrace, if_neg hlt, if_neg heq] at h
      simp at h

theorem table_length_pos (vowel : Bool) :
    0 < (if vowel then VOWELS else CONSONANTS).length := by
  cases vowel <;> decide

/-- The inner loop never hits the `unwrap` panic on a table lookup: the
drawn index is reduced modulo the (positive) table length. -/
theorem pickLoop_not_lookup (vowel : Bool) (idx length : Nat) :
    ∀ fuel r, (pickLoop vowel idx length fuel r).1 ≠ .error .lookupPanic := by
  intro fuel
  induction fuel with
  | zero => intro r h; simp [pickLoop] at h
  | succ n ih =>
    intro r h
    simp only [pickLoop] at h
    split at h
    · rename_i hg
      have hlt : (next r).1 % (if vowel then VOWELS else CONSONANTS).length <
          (if vowel then VOWELS else CONSONANTS).length :=
        Nat.mod_lt _ (table_length_pos vowel)
      exact absurd (List.get?_eq_none.mp hg) (by omega)
    · rename_i tok hg
      split at h
      · exact ih _ h
      · simp at h

theorem genFrags_not_lookup (fuel length : Nat) :
    ∀ count idx vowel r, (genFrags fuel length count idx vowel r).1 ≠ .error .lookupPanic := by
  intro count
  induction count with
  | zero => intro idx vowel r h; simp [genFrags] at h
  | succ n ih =>
    intro idx vowel r h
    simp only [genFrags] at h
    split at h
    · rename_i e r2 hp
      injection h with he
      subst he
      have := pickLoop_not_lookup vowel idx length fuel r
      rw [hp] at this
      exact this rfl
    · rename_i token r2 hp
      split at h
      · rename_i e r3 hgf
        injection h with he
        subst he
        have := ih (idx + 1) (!vowel) r2
        rw [hgf] at this
        exact this rfl
      · simp at h

theorem generateTrace_not_lookup (fuel min max : Nat) (r : RngState) :
    (generateTrace fuel min max r).1 ≠ .error .lookupPanic := by
  rw [generateTrace]
  by_cases hlt : min < max
  · rw [if_pos hlt]
    exact genFrags_not_lookup fuel _ _ 0 _ _
  · rw [if_neg hlt]
    by_cases heq : min = max
    · rw [if_pos heq]
      exact genFrags_not_lookup fuel _ _ 0 _ _
    · rw [if_neg heq]
      simp

theorem next_fst_equiv {r1 r2 : RngState} (h : EquivFrom r1 r2) :
    (next r1).1 = (next r2).1 := by
  have h0 := h 0
  simpa [next] using h0

theorem next_snd_equiv {r1 r2 : RngState} (h : EquivFrom r1 r2) :
    EquivFrom (next r1).2 (next r2).2 := by
  intro n
  have hn := h (1 + n)
  simpa [next, Nat.add_assoc] using hn

/-- Sources with identical draw sequences drive the inner loop to the same
result, leaving sources with identical remaining draw sequences. -/
theorem pickLoop_equiv (vowel : Bool) (idx length : Nat) :
    ∀ fuel (r1 r2 : RngState), EquivFrom r1 r2 →
      (pickLoop vowel idx length fuel r1).1 = (pickLoop vowel idx length fuel r2).1 ∧
      EquivFrom (pickLoop vowel idx length fuel r1).2 (pickLoop vowel idx length fuel r2).2 := by
  intro fuel
  induction fuel with
  | zero => intro r1 r2 h; exact ⟨rfl, h⟩
  | succ n ih =>
    intro r1 r2 h
    have hv := next_fst_equiv h
    have hs := next_snd_equiv h
    simp only [pickLoop, hv]
    cases hg : (if vowel then VOWELS else CONSONANTS).get?
        ((next r2).1 % (if vowel then VOWELS else CONSONANTS).length) with
    | none => exact ⟨by simp, hs⟩
    | some tok =>
      by_cases hr : rejected idx length tok.2
      · simp only [if_pos hr]
        exact ih _ _ hs
      · simp only [if_neg hr]
        exact ⟨by simp, hs⟩

/-- Sources with identical draw sequences drive the outer loop to the same
trace, leaving sources with identical remaining draw sequences. -/
theorem genFrags_equiv (fuel length : Nat) :
    ∀ count idx vowel (r1 r2 : RngState), EquivFrom r1 r2 →
      (genFrags fuel length count idx vowel r1).1 = (genFrags fuel length count idx vowel r2).1 ∧
      EquivFrom (genFrags fuel length count idx vowel r1).2 (genFrags fuel length count idx vowel r2).2 := by
  intro count
  induction count with
  | zero => intro idx vowel r1 r2 h; exact ⟨rfl, h⟩
  | succ n ih =>
    intro idx vowel r1 r2 h
    obtain ⟨hp1, hp2⟩ := pickLoop_equiv vowel idx length fuel r1 r2 h
    simp only [genFrags]
    cases hq1 : pickLoop vowel idx length fuel r1 with
    | mk res1 s1 =>
      cases hq2 : pickLoop vowel idx length fuel r2 with
      | mk res2 s2 =>
        rw [hq1, hq2] at hp1 hp2
        simp only at hp1 hp2
        subst hp1
        cases res1 with
        | error e => exact ⟨by simp, hp2⟩
        | ok token =>
          obtain ⟨hg1, hg2⟩ := ih (idx + 1) (!vowel) s1 s2 hp2
          cases hr1 : genFrags fuel length n (idx + 1) (!vowel) s1 with
          | mk fres1 t1 =>
            cases hr2 : genFrags fuel length n (idx + 1) (!vowel) s2 with
            | mk fres2 t2 =>
              rw [hr1, hr2] at hg1 hg2
              simp only at hg1 hg2
              subst hg1
              simp only [hr1, hr2]
              cases fres1 with
              | error e => exact ⟨by simp, hg2⟩
              | ok rest => exact ⟨by simp, hg2⟩

/-- Sources with identical draw sequences give identical `generateTrace`
results. -/
theorem generateTrace_equiv (fuel min max : Nat) (r1 r2 : RngState) (h : EquivFrom r1 r2) :
    (generateTrace fuel min max r1).1 = (generateTrace fuel min max r2).1 := by
  by_cases hlt : min < max
  · simp only [generateTrace, if_pos hlt]
    have hL : (genRange min max r1).1 = (genRange min max r2).1 := by
      simp only [genRange, next_fst_equiv h]
    have hLs : EquivFrom (genRange min max r1).2 (genRange min max r2).2 := by
      simpa [genRange] using next_snd_equiv h
    have hV : (genBool (genRange min max r1).2).1 = (genBool (genRange min max r2).2).1 := by
      simp only [genBool, next_fst_equiv hLs]
    have hVs : EquivFrom (genBool (genRange min max r1).2).2 (genBool (genRange min max r2).2).2 := by
      simpa [genBool] using next_snd_equiv hLs
    rw [hL, hV]
    exact (genFrags_equiv fuel _ _ 0 _ _ _ hVs).1
  · by_cases heq : min = max
    · simp only [generateTrace, if_neg hlt, if_pos heq]
      have hV : (genBool r1).1 = (genBool r2).1 := by
        simp only [genBool, next_fst_equiv h]
      have hVs : EquivFrom (genBool r1).2 (genBool r2).2 := by
        simpa [genBool] using next_snd_equiv h
      rw [hV]
      exact (genFrags_equiv fuel _ _ 0 _ _ _ hVs).1
    · simp only [generateTrace, if_neg hlt, if_neg heq]

theorem data_append (a b : String) : (a ++ b).data = a.data ++ b.data := rfl

theorem foldl_push_data :
    ∀ (tr : List (Frag × Bool)) (acc : String),
      (tr.foldl (fun acc t => acc ++ t.1.1) acc).data =
        acc.data ++ (tr.map (fun t => t.1.1.data)).flatten := by
  intro tr
  induction tr with
  | nil => intro acc; simp
  | cons a l ih =>
    intro acc
    simp [List.foldl_cons, ih, data_append]

/-- The accumulated output string is the concatenation of the accepted
fragments' texts, character for character. -/
theorem fragsToString_data (tr : List (Frag × Bool)) :
    (fragsToString tr).data = (tr.map (fun t => t.1.1.data)).flatten := by
  have h := foldl_push_data tr ""
  simpa [fragsToString] using h

set_option maxRecDepth 10000 in
/-- Checked over both shipped tables: every fragment whose `BOW` flag is
set has nonempty text starting with a lowercase ASCII letter, which
`asciiToUpper` maps into the uppercase ASCII range. -/
theorem bow_fragment_starts_lower :
    ∀ t ∈ CONSONANTS ++ VOWELS, t.2 &&& BOW = BOW →
      t.1.data ≠ [] ∧
      'A' ≤ asciiToUpper (t.1.data.headD 'a') ∧ asciiToUpper (t.1.data.headD 'a') ≤ 'Z' := by
  decide

set_option maxRecDepth 10000 in
/-- Checked over both shipped tables: no stored fragment text contains an
uppercase ASCII letter. -/
theorem table_chars_not_upper :
    ∀ t ∈ CONSONANTS ++ VOWELS, ∀ c ∈ t.1.data, ¬('A' ≤ c ∧ c ≤ 'Z') := by
  decide

/-- Every fragment of a successful trace is an entry of one of the two
shipped tables. -/
theorem trace_mem_tables {fuel min max : Nat} {r : RngState}
    {tr : List (Frag × Bool)} {r1 : RngState}
    (h : generateTrace fuel min max r = (.ok tr, r1)) :
    ∀ t ∈ tr, t.1 ∈ CONSONANTS ++ VOWELS := by
  intro t ht
  obtain ⟨⟨i, hi⟩, hget⟩ := List.mem_iff_get.mp ht
  obtain ⟨-, -, hall⟩ := generateTrace_ok h
  obtain ⟨-, -, hmem⟩ := hall i hi
  rw [entry_eq_get tr i hi, hget] at hmem
  by_cases hv : t.2 = true
  · rw [if_pos hv] at hmem
    exact List.mem_append.mpr (Or.inr hmem)
  · rw [if_neg hv] at hmem
    exact List.mem_append.mpr (Or.inl hmem)

/-- A normal return means the capitalization step succeeded on the
accumulated output. -/
theorem generate_name_eq {fuel min max : Nat} {r : RngState}
    {tr : List (Frag × Bool)} {rA : RngState} {s : String}
    (h1 : generateTrace fuel min max r = (.ok tr, rA))
    (h2 : (generate fuel min max r).1 = .name s) :
    capitalizeFirst (fragsToString tr) = some s := by
  simp only [generate, h1] at h2
  split at h2
  · simp at h2
  · rename_i s2 hc
    injection h2 with he
    subst he
    exact hc

theorem not_xor_left (a b : Bool) : (!a).xor b = !(a.xor b) := by
  cases a <;> cases b <;> rfl

theorem isSome_of_lt {α : Type} (l : List α) (n : Nat) (h : n < l.length) :
    (l.get? n).isSome = true := by
  cases hg : l.get? n with
  | none => exact absurd (List.get?_eq_none.mp hg) (by omega)
  | some a => rfl

/-! ## Claims -/

/-- C1, counterexample: `("qu", BMW)` (table index 12 of `CONSONANTS`) has
`BOW` set but `EOW` unset, yet at the sole position of a length-1 word the
chain rejects it — the `idx == length-1` END test is reached and fails —
and a `generate 1 1` run whose source only ever offers this fragment never
accepts it, contradicting the claim that position 0 is validated only
against `BOW` and that such a fragment can be accepted. -/
theorem c1_counterexample :
    (BMW &&& BOW = BOW) ∧ (BMW &&& EOW ≠ EOW) ∧ (BMW &&& MOW = MOW) ∧
    CONSONANTS.get? 12 = some ("qu", BMW) ∧
    rejected 0 1 BMW = true ∧
    (generate 6 1 1 ⟨fun n => if n = 0 then 0 else 12, 0⟩).1 = .panicked .outOfFuel := by
  refine ⟨by decide, by decide, by decide, by decide, by decide, by decide⟩

/-- C1 (amended): when the drawn length equals 1 the sole fragment at
position 0 is validated against the BEGIN constraint and — since each
placement test's negation is its own `else if` arm whose failure falls
through to the next — also against the END and MIDDLE constraints: a
successful `min = max = 1` run accepts exactly one fragment and that
fragment has all three flags set, so a fragment with BEGIN set but END
and/or MIDDLE unset is never accepted. -/
theorem c1_amended {fuel : Nat} {r : RngState} {tr : List (Frag × Bool)} {r1 : RngState}
    (h : generateTrace fuel 1 1 r = (.ok tr, r1)) :
    tr.length = 1 ∧
    (entry tr 0).1.2 &&& BOW = BOW ∧
    (entry tr 0).1.2 &&& EOW = EOW ∧
    (entry tr 0).1.2 &&& MOW = MOW := by
  obtain ⟨⟨-, hfix⟩, -, hall⟩ := generateTrace_ok h
  have hlen : tr.length = 1 := hfix rfl
  obtain ⟨hrej, -, -⟩ := hall 0 (by omega)
  rw [hlen] at hrej
  obtain ⟨h1, h2, h3⟩ := (rejected_false_iff 0 1 _).mp hrej
  exact ⟨hlen, h1 rfl, h2 rfl, h3⟩

/-- Witness for C1 (amended) at a concrete accepting run. -/
theorem c1_amended_witness :
    ([(("b", AIW), false)] : List (Frag × Bool)).length = 1 ∧
    (entry [(("b", AIW), false)] 0).1.2 &&& BOW = BOW ∧
    (entry [(("b", AIW), false)] 0).1.2 &&& EOW = EOW ∧
    (entry [(("b", AIW), false)] 0).1.2 &&& MOW = MOW :=
  @c1_amended 5 ⟨fun _ => 0, 0⟩ [(("b", AIW), false)] ⟨fun _ => 0, 2⟩ rfl

/-- C2: in every successful run producing at least two fragments, the
fragment at position 0 has its BEGIN flag set, the fragment at the last
position has its END flag set, and every interior fragment has its MIDDLE
flag set. -/
theorem c2_placement_legality
    {fuel min max : Nat} {r : RngState} {tr : List (Frag × Bool)} {r1 : RngState}
    (h : generateTrace fuel min max r = (.ok tr, r1)) (hge : 2 ≤ tr.length) :
    ((entry tr 0).1.2 &&& BOW = BOW) ∧
    ((entry tr (tr.length - 1)).1.2 &&& EOW = EOW) ∧
    ∀ j, 0 < j → j < tr.length - 1 → (entry tr j).1.2 &&& MOW = MOW := by
  obtain ⟨-, -, hall⟩ := generateTrace_ok h
  refine ⟨?_, ?_, ?_⟩
  · obtain ⟨hrej, -, -⟩ := hall 0 (by omega)
    exact ((rejected_false_iff _ _ _).mp hrej).1 rfl
  · obtain ⟨hrej, -, -⟩ := hall (tr.length - 1) (by omega)
    exact ((rejected_false_iff _ _ _).mp hrej).2.1 rfl
  · intro j hj0 hjlt
    obtain ⟨hrej, -, -⟩ := hall j (by omega)
    exact ((rejected_false_iff _ _ _).mp hrej).2.2

/-- Witness for C2 at a concrete two-fragment run. -/
theorem c2_placement_legality_witness :
    ((entry [(("b", AIW), false), (("a", AIW), true)] 0).1.2 &&& BOW = BOW) ∧
    ((entry [(("b", AIW), false), (("a", AIW), true)]
        (([(("b", AIW), false), (("a", AIW), true)] : List (Frag × Bool)).length - 1)).1.2
        &&& EOW = EOW) ∧
    ∀ j, 0 < j → j < ([(("b", AIW), false), (("a", AIW), true)] : List (Frag × Bool)).length - 1 →
      (entry [(("b", AIW), false), (("a", AIW), true)] j).1.2 &&& MOW = MOW :=
  @c2_placement_legality 10 2 2 ⟨fun _ => 0, 0⟩
    [(("b", AIW), false), (("a", AIW), true)] ⟨fun _ => 0, 3⟩ rfl (by decide)

/-- C3: for all `min > max` and every source, `generate` fails with the
invalid-range panic and returns the source exactly as given: no randomness
is consumed on the failing path. -/
theorem c3_invalid_range (fuel min max : Nat) (r : RngState) (h : max < min) :
    generate fuel min max r = (.panicked .invalidRange, r) := by
  have hlt : ¬ min < max := by omega
  have hne : ¬ min = max := by omega
  simp [generate, generateTrace, if_neg hlt, if_neg hne]

/-- Witness for C3 at a concrete invalid range. -/
theorem c3_invalid_range_witness :
    generate 3 5 3 ⟨fun _ => 0, 0⟩ = (.panicked .invalidRange, ⟨fun _ => 0, 0⟩) :=
  c3_invalid_range 3 5 3 ⟨fun _ => 0, 0⟩ (by decide)

/-- C4: in every successful run the number of accepted fragments lies in
the half-open interval `[min, max)` when `min < max`, and equals `k`
exactly when `min = max = k`. -/
theorem c4_fragment_count
    {fuel min max : Nat} {r : RngState} {tr : List (Frag × Bool)} {r1 : RngState}
    (h : generateTrace fuel min max r = (.ok tr, r1)) :
    (min < max → min ≤ tr.length ∧ tr.length < max) ∧
    (min = max → tr.length = min) :=
  (generateTrace_ok h).1

/-- Witness for C4: a concrete `min = 2, max = 4` run yields two fragments,
and `2 ≤ 2 < 4`; a concrete `min = max = 2` run yields exactly two. -/
theorem c4_fragment_count_witness :
    (2 ≤ ([(("b", AIW), false), (("a", AIW), true)] : List (Frag × Bool)).length ∧
      ([(("b", AIW), false), (("a", AIW), true)] : List (Frag × Bool)).length < 4) ∧
    ([(("b", AIW), false), (("a", AIW), true)] : List (Frag × Bool)).length = 2 :=
  ⟨(@c4_fragment_count 10 2 4 ⟨fun _ => 0, 0⟩
      [(("b", AIW), false), (("a", AIW), true)] ⟨fun _ => 0, 4⟩ rfl).1 (by decide),
    (@c4_fragment_count 10 2 2 ⟨fun _ => 0, 0⟩
      [(("b", AIW), false), (("a", AIW), true)] ⟨fun _ => 0, 3⟩ rfl).2 rfl⟩

/-- C5: with `min = max = 0` the run accepts zero fragments (for every
fuel and every source) and the call then fails at the uppercase
post-processing step on the empty output string instead of returning. -/
theorem c5_zero_length_panics (fuel : Nat) (r : RngState) :
    generateTrace fuel 0 0 r = (.ok [], (genBool r).2) ∧
    (generate fuel 0 0 r).1 = .panicked .capitalizePanic :=
  ⟨rfl, rfl⟩

/-- C6: the trace head's parity is the single boolean draw taken before
the loop; fragment `j` is drawn from the vowel table iff that initial
boolean xor the parity of `j`, each fragment belongs to the table selected
by its parity, and adjacent fragments always come from opposite tables. -/
theorem c6_alternation
    {fuel min max : Nat} {r : RngState} {tr : List (Frag × Bool)} {r1 : RngState}
    (h : generateTrace fuel min max r = (.ok tr, r1)) :
    (0 < tr.length → (entry tr 0).2 = initialVowel min max r) ∧
    (∀ j, j < tr.length →
      (entry tr j).2 = ((entry tr 0).2).xor (decide (j % 2 = 1)) ∧
      (entry tr j).1 ∈ (if (entry tr j).2 then VOWELS else CONSONANTS)) ∧
    (∀ j, j + 1 < tr.length → (entry tr (j + 1)).2 = !(entry tr j).2) := by
  obtain ⟨-, hhead, hall⟩ := generateTrace_ok h
  refine ⟨hhead, ?_, ?_⟩
  · intro j hj
    obtain ⟨-, hx, hm⟩ := hall j hj
    exact ⟨hx, hm⟩
  · intro j hj
    obtain ⟨-, hx1, -⟩ := hall j (by omega)
    obtain ⟨-, hx2, -⟩ := hall (j + 1) hj
    rw [hx1, hx2, ← xor_parity, not_xor_left]

/-- Witness for C6 at a concrete two-fragment run (consonant then vowel). -/
theorem c6_alternation_witness :
    (0 < ([(("b", AIW), false), (("a", AIW), true)] : List (Frag × Bool)).length →
      (entry [(("b", AIW), false), (("a", AIW), true)] 0).2 = initialVowel 2 2 ⟨fun _ => 0, 0⟩) ∧
    (∀ j, j < ([(("b", AIW), false), (("a", AIW), true)] : List (Frag × Bool)).length →
      (entry [(("b", AIW), false), (("a", AIW), true)] j).2 =
        ((entry [(("b", AIW), false), (("a", AIW), true)] 0).2).xor (decide (j % 2 = 1)) ∧
      (entry [(("b", AIW), false), (("a", AIW), true)] j).1 ∈
        (if (entry [(("b", AIW), false), (("a", AIW), true)] j).2 then VOWELS else CONSONANTS)) ∧
    (∀ j, j + 1 < ([(("b", AIW), false), (("a", AIW), true)] : List (Frag × Bool)).length →
      (entry [(("b", AIW), false), (("a", AIW), true)] (j + 1)).2 =
        !(entry [(("b", AIW), false), (("a", AIW), true)] j).2) :=
  @c6_alternation 10 2 2 ⟨fun _ => 0, 0⟩
    [(("b", AIW), false), (("a", AIW), true)] ⟨fun _ => 0, 3⟩ rfl

/-- C7: every returned name is the stored concatenation of the accepted
fragments' texts with exactly its first character replaced by its ASCII
uppercase form; that first character is an uppercase ASCII letter, and
every subsequent character is exactly as stored in the tables — in
particular none of them is an uppercase ASCII letter. -/
theorem c7_capitalization
    {fuel min max : Nat} {r : RngState} {tr : List (Frag × Bool)} {rA : RngState} {s : String}
    (h1 : generateTrace fuel min max r = (.ok tr, rA))
    (h2 : (generate fuel min max r).1 = .name s) :
    ∃ c cs, (fragsToString tr).data = c :: cs ∧
      s.data = asciiToUpper c :: cs ∧
      'A' ≤ asciiToUpper c ∧ asciiToUpper c ≤ 'Z' ∧
      ∀ x ∈ cs, ¬('A' ≤ x ∧ x ≤ 'Z') := by
  have hc := generate_name_eq h1 h2
  rw [capitalizeFirst] at hc
  cases hd : (fragsToString tr).data with
  | nil => simp only [hd] at hc; simp at hc
  | cons c cs =>
    simp only [hd] at hc
    by_cases hascii : c.toNat < 128
    · rw [if_pos hascii] at hc
      injection hc with hs
      have hsdata : s.data = asciiToUpper c :: cs := by rw [← hs]
      have hup : 'A' ≤ asciiToUpper c ∧ asciiToUpper c ≤ 'Z' := by
        cases htr : tr with
        | nil =>
          rw [htr] at hd
          rw [show (fragsToString ([] : List (Frag × Bool))).data = [] from rfl] at hd
          simp at hd
        | cons t0 rest =>
          have hbow : t0.1.2 &&& BOW = BOW := by
            obtain ⟨-, -, hall⟩ := generateTrace_ok h1
            rw [htr] at hall
            obtain ⟨hrej, -, -⟩ := hall 0 (by simp)
            exact ((rejected_false_iff _ _ _).mp hrej).1 rfl
          have hmem : t0.1 ∈ CONSONANTS ++ VOWELS := by
            apply trace_mem_tables h1
            rw [htr]
            exact List.mem_cons_self _ _
          obtain ⟨hne, hA, hZ⟩ := bow_fragment_starts_lower t0.1 hmem hbow
          cases ht0 : t0.1.1.data with
          | nil => exact absurd ht0 hne
          | cons c0 cs0 =>
            have hj : (fragsToString tr).data =
                c0 :: (cs0 ++ (rest.map (fun t => t.1.1.data)).flatten) := by
              rw [fragsToString_data, htr]
              simp [ht0]
            rw [hd] at hj
            injection hj with hc0 hcs0
            subst hc0
            rw [ht0] at hA hZ
            exact ⟨hA, hZ⟩
      have hnup : ∀ x ∈ cs, ¬('A' ≤ x ∧ x ≤ 'Z') := by
        intro x hx
        have hxj : x ∈ (tr.map (fun t => t.1.1.data)).flatten := by
          rw [← fragsToString_data, hd]
          exact List.mem_cons_of_mem _ hx
        obtain ⟨l, hl, hxl⟩ := List.mem_flatten.mp hxj
        obtain ⟨t, ht, rfl⟩ := List.mem_map.mp hl
        exact table_chars_not_upper t.1 (trace_mem_tables h1 t ht) x hxl
      exact ⟨c, cs, rfl, hsdata, hup.1, hup.2, hnup⟩
    · rw [if_neg hascii] at hc
      simp at hc

/-- Witness for C7 at a concrete run returning the name `Ba`. -/
theorem c7_capitalization_witness :
    ∃ c cs, (fragsToString [(("b", AIW), false), (("a", AIW), true)]).data = c :: cs ∧
      ("Ba" : String).data = asciiToUpper c :: cs ∧
      'A' ≤ asciiToUpper c ∧ asciiToUpper c ≤ 'Z' ∧
      ∀ x ∈ cs, ¬('A' ≤ x ∧ x ≤ 'Z') :=
  @c7_capitalization 10 2 2 ⟨fun _ => 0, 0⟩
    [(("b", AIW), false), (("a", AIW), true)] ⟨fun _ => 0, 3⟩ "Ba" rfl rfl

/-- C8: `generate` is deterministic in its inputs — for fixed bounds, two
sources yielding identical draw sequences produce identical outcomes, in
particular byte-identical name strings; no state other than the supplied
source is consulted. -/
theorem c8_deterministic (fuel min max : Nat) (r1 r2 : RngState) (h : EquivFrom r1 r2) :
    (generate fuel min max r1).1 = (generate fuel min max r2).1 := by
  have ht := generateTrace_equiv fuel min max r1 r2 h
  cases hq1 : generateTrace fuel min max r1 with
  | mk res1 s1 =>
    cases hq2 : generateTrace fuel min max r2 with
    | mk res2 s2 =>
      rw [hq1, hq2] at ht
      simp only at ht
      subst ht
      simp only [generate, hq1, hq2]
      cases res1 with
      | error e => simp
      | ok tr =>
        cases hcap : capitalizeFirst (fragsToString tr) <;> simp [hcap]

/-- Witness for C8: two literally different but draw-equivalent sources
(one shifted by two positions) yield the same outcome. -/
theorem c8_deterministic_witness :
    EquivFrom ⟨fun n => n, 2⟩ ⟨fun n => n + 2, 0⟩ ∧
    (generate 5 1 1 ⟨fun n => n, 2⟩).1 = (generate 5 1 1 ⟨fun n => n + 2, 0⟩).1 := by
  have h : EquivFrom ⟨fun n => n, 2⟩ ⟨fun n => n + 2, 0⟩ := by
    intro n
    show 2 + n = (0 + n) + 2
    omega
  exact ⟨h, c8_deterministic 5 1 1 _ _ h⟩

/-- C9: the acceptance set of the uncapped rejection-sampling loop is
never empty — for every position index and every word length, each of the
two shipped tables contains at least one fragment passing the placement
test enforced there (the all-in-word fragments pass everywhere), so no
position class has an empty acceptance set in either table. -/
theorem c9_acceptance_nonempty (idx length : Nat) :
    (CONSONANTS.any fun t => !rejected idx length t.2) = true ∧
    (VOWELS.any fun t => !rejected idx length t.2) = true := by
  have h1 : ((AIW &&& BOW) != BOW) = false := by decide
  have h2 : ((AIW &&& EOW) != EOW) = false := by decide
  have h3 : ((AIW &&& MOW) != MOW) = false := by decide
  have hb : rejected idx length AIW = false := by
    simp [rejected, h1, h2, h3]
  constructor
  · exact List.any_eq_true.mpr ⟨("b", AIW), by decide, by simp [hb]⟩
  · exact List.any_eq_true.mpr ⟨("a", AIW), by decide, by simp [hb]⟩

/-- C10: table lookups never fail: both tables are nonempty constant
lists of lengths 83 and 91, the drawn index is reduced modulo the table
length so it is always in range (and the modulus is never zero), the
lookup always yields an entry, and no `generate` run can end in the
lookup panic. -/
theorem c10_lookup_safe (n fuel min max : Nat) (r : RngState) :
    VOWELS.length = 83 ∧ CONSONANTS.length = 91 ∧
    n % VOWELS.length < VOWELS.length ∧
    n % CONSONANTS.length < CONSONANTS.length ∧
    (VOWELS.get? (n % VOWELS.length)).isSome = true ∧
    (CONSONANTS.get? (n % CONSONANTS.length)).isSome = true ∧
    (generate fuel min max r).1 ≠ .panicked .lookupPanic := by
  have hv : VOWELS.length = 83 := by decide
  have hc : CONSONANTS.length = 91 := by decide
  have h1 : n % VOWELS.length < VOWELS.length := Nat.mod_lt _ (by omega)
  have h2 : n % CONSONANTS.length < CONSONANTS.length := Nat.mod_lt _ (by omega)
  refine ⟨hv, hc, h1, h2, isSome_of_lt _ _ h1, isSome_of_lt _ _ h2, ?_⟩
  intro hcon
  have hnl := generateTrace_not_lookup fuel min max r
  cases hq : generateTrace fuel min max r with
  | mk res s =>
    rw [hq] at hnl
    simp only [generate, hq] at hcon
    cases res with
    | error e =>
      simp only at hcon
      injection hcon with he
      rw [he] at hnl
      exact hnl rfl
    | ok tr =>
      cases hcap : capitalizeFirst (fragsToString tr) with
      | none =>
        simp only [hcap] at hcon
        simp at hcon
      | some s2 =>
        simp only [hcap] at hcon
        simp at hcon

/-- Witness for C10 at concrete draw, fuel, bounds and source. -/
theorem c10_lookup_safe_witness :
    VOWELS.length = 83 ∧ CONSONANTS.length = 91 ∧
    7 % VOWELS.length < VOWELS.length ∧
    7 % CONSONANTS.length < CONSONANTS.length ∧
    (VOWELS.get? (7 % VOWELS.length)).isSome = true ∧
    (CONSONANTS.get? (7 % CONSONANTS.length)).isSome = true ∧
    (generate 3 1 1 ⟨fun _ => 0, 0⟩).1 ≠ .panicked .lookupPanic :=
  c10_lookup_safe 7 3 1 1 ⟨fun _ => 0, 0⟩
